import Mathlib

/-!
Verification of the focus block-lifecycle engine.

Shallow embedding of the Rust sources `src/main.rs` and `src/util.rs`.
Text is modelled as `List Char`.  The regular expression
`# BEGIN FOCUS BLOCK([\s\S]*?)# END FOCUS BLOCK` (constant `REGEX` in
`util.rs`) is modelled by `firstBlock` (leftmost, shortest match) and
`stripAll` (the semantics of `Regex::replace_all` with the empty
replacement).
-/

namespace Focus

/-- Substring-at-the-front relation: `IsPre p s` holds when `p` is an
initial segment of `s`. -/
def IsPre (p s : List Char) : Prop := ∃ r, p ++ r = s

instance (p s : List Char) : Decidable (IsPre p s) :=
  decidable_of_iff (p = s.take p.length) (by
    constructor
    · intro h
      have hs := List.take_append_drop p.length s
      rw [← h] at hs
      exact ⟨s.drop p.length, hs⟩
    · rintro ⟨r, rfl⟩
      rw [List.take_left])

theorem isPre_nil (s : List Char) : IsPre [] s := ⟨s, rfl⟩

theorem isPre_refl (p : List Char) : IsPre p p := ⟨[], List.append_nil p⟩

theorem isPre_append (p r : List Char) : IsPre p (p ++ r) := ⟨r, rfl⟩

theorem isPre_cons_iff {a b : Char} {p s : List Char} :
    IsPre (a :: p) (b :: s) ↔ a = b ∧ IsPre p s := by
  constructor
  · rintro ⟨r, h⟩
    rw [List.cons_append] at h
    injection h with h1 h2
    exact ⟨h1, r, h2⟩
  · rintro ⟨rfl, r, rfl⟩
    exact ⟨r, rfl⟩

theorem isPre_length_le {p s : List Char} (h : IsPre p s) : p.length ≤ s.length := by
  rcases h with ⟨r, rfl⟩
  simp

/-- A pattern that fits inside the left part of an append is an initial
segment of that left part. -/
theorem isPre_of_isPre_append {p x y : List Char}
    (h : IsPre p (x ++ y)) (hl : p.length ≤ x.length) : IsPre p x := by
  rcases h with ⟨r, hr⟩
  have hp : p = (x ++ y).take p.length := by
    rw [← hr, List.take_left]
  rw [List.take_append_eq_append_take] at hp
  have h0 : p.length - x.length = 0 := Nat.sub_eq_zero_of_le hl
  rw [h0, List.take_zero, List.append_nil] at hp
  have hx := List.take_append_drop p.length x
  rw [← hp] at hx
  exact ⟨x.drop p.length, hx⟩

/-- A pattern reaching past the left part of `x ++ c :: y` contains `c`. -/
theorem mem_of_isPre_append_cons {p x y : List Char} {c : Char}
    (h : IsPre p (x ++ c :: y)) (hl : x.length < p.length) : c ∈ p := by
  rcases h with ⟨r, hr⟩
  have hp : p = (x ++ c :: y).take p.length := by
    rw [← hr, List.take_left]
  rw [List.take_append_eq_append_take] at hp
  obtain ⟨k, hk⟩ : ∃ k, p.length - x.length = k + 1 :=
    ⟨p.length - x.length - 1, by omega⟩
  rw [hk, List.take_succ_cons] at hp
  rw [hp]
  exact List.mem_append_right _ (List.mem_cons_self _ _)

theorem head_eq_of_isPre {p s : List Char} (h : IsPre p s) (hne : p ≠ []) :
    p.head? = s.head? := by
  rcases h with ⟨r, rfl⟩
  cases p with
  | nil => exact absurd rfl hne
  | cons a p => rfl

/-- Index of the first occurrence of `pat` in `s`, if any (the leftmost
position where the pattern is a prefix of the remaining text). -/
def findSub (pat : List Char) : List Char → Option Nat
  | [] => if pat = [] then some 0 else none
  | c :: s => if IsPre pat (c :: s) then some 0 else (findSub pat s).map (· + 1)

theorem findSub_cons_pos {pat : List Char} {c : Char} {s : List Char}
    (h : IsPre pat (c :: s)) : findSub pat (c :: s) = some 0 := by
  simp [findSub, h]

theorem findSub_cons_neg {pat : List Char} {c : Char} {s : List Char}
    (h : ¬ IsPre pat (c :: s)) :
    findSub pat (c :: s) = (findSub pat s).map (· + 1) := by
  simp [findSub, h]

theorem findSub_self {pat : List Char} (h : pat ≠ []) : findSub pat pat = some 0 := by
  cases pat with
  | nil => exact absurd rfl h
  | cons c s => exact findSub_cons_pos (isPre_refl _)

/-- An occurrence fits inside the text. -/
theorem findSub_le {pat s : List Char} {i : Nat} (h : findSub pat s = some i) :
    i + pat.length ≤ s.length := by
  induction s generalizing i with
  | nil =>
    by_cases hp : pat = []
    · subst hp
      simp [findSub] at h
      omega
    · simp [findSub, hp] at h
  | cons c s ih =>
    by_cases hpre : IsPre pat (c :: s)
    · rw [findSub_cons_pos hpre] at h
      injection h with h
      subst h
      simpa using isPre_length_le hpre
    · rw [findSub_cons_neg hpre] at h
      rcases Option.map_eq_some'.mp h with ⟨j, hj, rfl⟩
      have := ih hj
      simp
      omega

/-- Containment test `hasSub pat s`, the model of the Rust substring test `str::contains`. -/
def hasSub (pat s : List Char) : Bool := (findSub pat s).isSome

theorem hasSub_eq_false_iff {pat s : List Char} :
    hasSub pat s = false ↔ ∀ k, ¬ IsPre pat (s.drop k) := by
  induction s with
  | nil =>
    by_cases hp : pat = []
    · subst hp
      simp only [hasSub, findSub, if_pos rfl, Option.isSome_some]
      constructor
      · intro h; cases h
      · intro h; exact absurd (isPre_nil _) (h 0)
    · simp only [hasSub, findSub, if_neg hp, Option.isSome_none]
      constructor
      · intro _ k
        rw [List.drop_nil]
        rintro ⟨r, hr⟩
        exact hp (List.append_eq_nil.mp hr).1
      · intro _; trivial
  | cons c s ih =>
    by_cases hpre : IsPre pat (c :: s)
    · simp only [hasSub, findSub_cons_pos hpre, Option.isSome_some]
      constructor
      · intro h; cases h
      · intro h; exact absurd hpre (by simpa using h 0)
    · simp only [hasSub, findSub_cons_neg hpre, Option.isSome_map']
      rw [show ((findSub pat s).isSome = false ↔ hasSub pat s = false) from Iff.rfl, ih]
      constructor
      · intro h k
        cases k with
        | zero => simpa using hpre
        | succ k => simpa using h k
      · intro h k
        simpa using h (k + 1)

theorem hasSub_true_of_isPre_drop {pat s : List Char} {k : Nat}
    (h : IsPre pat (s.drop k)) : hasSub pat s = true := by
  cases hb : hasSub pat s with
  | true => rfl
  | false => exact absurd h (hasSub_eq_false_iff.mp hb k)

theorem not_isPre_drop_of_hasSub_false {pat s : List Char}
    (h : hasSub pat s = false) (k : Nat) : ¬ IsPre pat (s.drop k) :=
  hasSub_eq_false_iff.mp h k

theorem findSub_eq_none_iff {pat s : List Char} :
    findSub pat s = none ↔ hasSub pat s = false := by
  unfold hasSub
  cases findSub pat s <;> simp

/-- The first occurrence inside the left part of an append stays the first
occurrence of the whole append. -/
theorem findSub_append_left {pat t u : List Char} {i : Nat}
    (h : findSub pat t = some i) : findSub pat (t ++ u) = some i := by
  induction t generalizing i with
  | nil =>
    by_cases hp : pat = []
    · subst hp
      simp [findSub] at h
      subst h
      cases u with
      | nil => simp [findSub]
      | cons c v => exact findSub_cons_pos (isPre_nil _)
    · simp [findSub, hp] at h
  | cons a t ih =>
    by_cases hpre : IsPre pat (a :: t)
    · rw [findSub_cons_pos hpre] at h
      injection h with h
      subst h
      have hx : IsPre pat (a :: (t ++ u)) := by
        rcases hpre with ⟨r, hr⟩
        refine ⟨r ++ u, ?_⟩
        rw [← List.append_assoc, hr]
        rfl
      show findSub pat (a :: (t ++ u)) = some 0
      exact findSub_cons_pos hx
    · rw [findSub_cons_neg hpre] at h
      rcases Option.map_eq_some'.mp h with ⟨j, hj, rfl⟩
      have hfit : pat.length ≤ t.length := by
        have := findSub_le hj
        omega
      have hnp : ¬ IsPre pat (a :: (t ++ u)) := by
        intro hcon
        have : IsPre pat (a :: t) :=
          isPre_of_isPre_append (x := a :: t) (y := u) (by simpa using hcon)
            (by simp; omega)
        exact hpre this
      rw [List.cons_append, findSub_cons_neg hnp, ih hj]
      rfl

/-- Appending text whose head character does not occur in the pattern, to
text with no occurrence: the first occurrence is inside the appended part. -/
theorem findSub_append_no_cross {pat t : List Char} {c : Char} {u : List Char}
    (hc : c ∉ pat) (ht : hasSub pat t = false) :
    findSub pat (t ++ c :: u) = (findSub pat (c :: u)).map (· + t.length) := by
  induction t with
  | nil =>
    simp only [List.nil_append, List.length_nil]
    cases findSub pat (c :: u) <;> simp
  | cons a t ih =>
    have hpre : ¬ IsPre pat (a :: t) := by
      have := not_isPre_drop_of_hasSub_false ht 0
      simpa using this
    have ht' : hasSub pat t = false := by
      rw [hasSub_eq_false_iff]
      intro k
      have := not_isPre_drop_of_hasSub_false ht (k + 1)
      simpa using this
    have hnp : ¬ IsPre pat ((a :: t) ++ c :: u) := by
      intro hcon
      by_cases hfit : pat.length ≤ (a :: t).length
      · exact hpre (isPre_of_isPre_append hcon hfit)
      · exact hc (mem_of_isPre_append_cons hcon (by omega))
    rw [List.cons_append, findSub_cons_neg (by simpa using hnp), ih ht']
    cases findSub pat (c :: u) <;> simp
    omega

/-- Appending after text avoiding the head character of the pattern: the first
occurrence is inside the appended part. -/
theorem findSub_append_head_avoid {pat t u : List Char} {hd : Char}
    (hp : pat.head? = some hd) (hhd : hd ∉ t) :
    findSub pat (t ++ u) = (findSub pat u).map (· + t.length) := by
  induction t with
  | nil =>
    simp only [List.nil_append, List.length_nil]
    cases findSub pat u <;> simp
  | cons a t ih =>
    obtain ⟨p2, rfl⟩ : ∃ p2, pat = hd :: p2 := by
      cases pat with
      | nil => cases hp
      | cons x xs => injection hp with hp; exact ⟨xs, by rw [hp]⟩
    have hnp : ¬ IsPre (hd :: p2) (a :: (t ++ u)) := by
      intro hcon
      have : hd = a := (isPre_cons_iff.mp hcon).1
      exact hhd (this ▸ List.mem_cons_self _ _)
    have hhd' : hd ∉ t := fun h => hhd (List.mem_cons_of_mem _ h)
    rw [List.cons_append, findSub_cons_neg hnp, ih hhd']
    cases findSub (hd :: p2) u <;> simp
    omega

/-- The opening marker line of the block region (from `REGEX` and
`build_blocked_content` in `util.rs`). -/
def BEGIN_MARKER : List Char := "# BEGIN FOCUS BLOCK".toList

/-- The closing marker line of the block region. -/
def END_MARKER : List Char := "# END FOCUS BLOCK".toList

/-- The `Config` struct of `util.rs`/`main.rs`; strings are `List Char`,
`u64` is `Nat`. -/
structure Config where
  hosts_path : List Char
  block_ip : List Char
  blocked_sites : List (List Char)
  duration : Nat
  data_directory : List Char
  log_directory : List Char
  start_audio : List Char
  end_audio : List Char
deriving DecidableEq

/-- The per-hostname lines (block address, TAB, hostname, newline) pushed by the loop in
`build_blocked_content` (`util.rs` lines 286-288). -/
def hostLines (config : Config) : List Char :=
  config.blocked_sites.flatMap (fun site => config.block_ip ++ '\t' :: (site ++ ['\n']))

/-- Model of `build_blocked_content` (`util.rs` lines 284-291): the text
`"\n# BEGIN FOCUS BLOCK\n"`, one line per site, then
`"# END FOCUS BLOCK"` with no trailing newline.  `main.rs` lines 158-162
build the identical string inline. -/
def build_blocked_content (config : Config) : List Char :=
  "\n# BEGIN FOCUS BLOCK\n".toList ++ hostLines config ++ END_MARKER

theorem build_blocked_content_shape (config : Config) :
    build_blocked_content config =
      '\n' :: (BEGIN_MARKER ++ '\n' :: (hostLines config ++ END_MARKER)) := by
  show ('\n' :: (BEGIN_MARKER ++ ['\n'])) ++ hostLines config ++ END_MARKER = _
  simp

/-- First match of the regex `# BEGIN FOCUS BLOCK([\s\S]*?)# END FOCUS BLOCK`
(constant `REGEX`, `util.rs` line 20): the text before the match and the
text after it.  The Rust `regex` crate finds the leftmost match; with the
lazy quantifier the match ends at the first closing marker after the
opening one. -/
def firstBlock (s : List Char) : Option (List Char × List Char) :=
  match findSub BEGIN_MARKER s with
  | none => none
  | some i =>
    let rest := s.drop (i + BEGIN_MARKER.length)
    match findSub END_MARKER rest with
    | none => none
    | some j => some (s.take i, rest.drop (j + END_MARKER.length))

/-- Model of `Regex::is_match` for `REGEX`. -/
def is_match (s : List Char) : Bool := (firstBlock s).isSome

theorem firstBlock_post_lt {s pre post : List Char}
    (h : firstBlock s = some (pre, post)) : post.length < s.length := by
  unfold firstBlock at h
  cases hb : findSub BEGIN_MARKER s with
  | none => rw [hb] at h; cases h
  | some i =>
    rw [hb] at h
    cases he : findSub END_MARKER (s.drop (i + BEGIN_MARKER.length)) with
    | none => simp [he] at h
    | some j =>
      simp only [he] at h
      injection h with h
      injection h with h1 h2
      have hbl := findSub_le hb
      have hel := findSub_le he
      rw [List.length_drop] at hel
      have hBpos : 0 < BEGIN_MARKER.length := by decide
      have hEpos : 0 < END_MARKER.length := by decide
      subst h2
      rw [List.length_drop, List.length_drop]
      omega

/-- Fuel-indexed model of `Regex::replace_all(REGEX, "")`: remove the
leftmost match and continue after it. -/
def stripAllFuel : Nat → List Char → List Char
  | 0, s => s
  | n + 1, s =>
    match firstBlock s with
    | none => s
    | some (pre, post) => pre ++ stripAllFuel n post

/-- Model of `Regex::replace_all(REGEX, "")` (used by `ctrlc_handler` and
`stop_daemon` in `util.rs`): the length of the text is always enough fuel
because every match removes at least the two marker lines. -/
def stripAll (s : List Char) : List Char := stripAllFuel s.length s

/-- Number of successive leftmost matches of `REGEX`: the number of block
regions the regex engine sees. -/
def countBlocksFuel : Nat → List Char → Nat
  | 0, _ => 0
  | n + 1, s =>
    match firstBlock s with
    | none => 0
    | some (_, post) => 1 + countBlocksFuel n post

/-- The number of block regions in a text. -/
def countBlocks (s : List Char) : Nat := countBlocksFuel s.length s

theorem stripAllFuel_none {s : List Char} (h : firstBlock s = none) :
    ∀ n, stripAllFuel n s = s := by
  intro n
  cases n with
  | zero => rfl
  | succ n => simp [stripAllFuel, h]

theorem countBlocksFuel_none {s : List Char} (h : firstBlock s = none) :
    ∀ n, countBlocksFuel n s = 0 := by
  intro n
  cases n with
  | zero => rfl
  | succ n => simp [countBlocksFuel, h]

theorem stripAllFuel_fuel_eq :
    ∀ n m (s : List Char), s.length ≤ n → s.length ≤ m →
      stripAllFuel n s = stripAllFuel m s := by
  intro n
  induction n with
  | zero =>
    intro m s hn _
    have : s = [] := by
      cases s with
      | nil => rfl
      | cons a t => simp at hn
    subst this
    have h0 : firstBlock [] = none := by decide
    rw [stripAllFuel_none h0, stripAllFuel_none h0]
  | succ n ih =>
    intro m s hn hm
    cases hb : firstBlock s with
    | none => rw [stripAllFuel_none hb, stripAllFuel_none hb]
    | some pp =>
      obtain ⟨pre, post⟩ := pp
      have hlt := firstBlock_post_lt hb
      obtain ⟨m', rfl⟩ : ∃ m', m = m' + 1 := ⟨m - 1, by omega⟩
      show stripAllFuel (n + 1) s = stripAllFuel (m' + 1) s
      simp only [stripAllFuel, hb]
      rw [ih m' post (by omega) (by omega)]

theorem countBlocksFuel_fuel_eq :
    ∀ n m (s : List Char), s.length ≤ n → s.length ≤ m →
      countBlocksFuel n s = countBlocksFuel m s := by
  intro n
  induction n with
  | zero =>
    intro m s hn _
    have : s = [] := by
      cases s with
      | nil => rfl
      | cons a t => simp at hn
    subst this
    have h0 : firstBlock [] = none := by decide
    rw [countBlocksFuel_none h0, countBlocksFuel_none h0]
  | succ n ih =>
    intro m s hn hm
    cases hb : firstBlock s with
    | none => rw [countBlocksFuel_none hb, countBlocksFuel_none hb]
    | some pp =>
      obtain ⟨pre, post⟩ := pp
      have hlt := firstBlock_post_lt hb
      obtain ⟨m', rfl⟩ : ∃ m', m = m' + 1 := ⟨m - 1, by omega⟩
      show countBlocksFuel (n + 1) s = countBlocksFuel (m' + 1) s
      simp only [countBlocksFuel, hb]
      rw [ih m' post (by omega) (by omega)]

theorem stripAll_of_none {s : List Char} (h : firstBlock s = none) :
    stripAll s = s := stripAllFuel_none h _

theorem stripAll_eq {s pre post : List Char} (h : firstBlock s = some (pre, post)) :
    stripAll s = pre ++ stripAll post := by
  have hlt := firstBlock_post_lt h
  unfold stripAll
  obtain ⟨k, hk⟩ : ∃ k, s.length = k + 1 := ⟨s.length - 1, by omega⟩
  rw [hk]
  simp only [stripAllFuel, h]
  rw [stripAllFuel_fuel_eq k post.length post (by omega) (le_refl _)]

theorem countBlocks_of_none {s : List Char} (h : firstBlock s = none) :
    countBlocks s = 0 := countBlocksFuel_none h _

theorem countBlocks_eq {s pre post : List Char} (h : firstBlock s = some (pre, post)) :
    countBlocks s = 1 + countBlocks post := by
  have hlt := firstBlock_post_lt h
  unfold countBlocks
  obtain ⟨k, hk⟩ : ∃ k, s.length = k + 1 := ⟨s.length - 1, by omega⟩
  rw [hk]
  simp only [countBlocksFuel, h]
  rw [countBlocksFuel_fuel_eq k post.length post (by omega) (le_refl _)]

theorem is_match_eq_false_iff {s : List Char} :
    is_match s = false ↔ firstBlock s = none := by
  unfold is_match
  cases firstBlock s <;> simp

theorem firstBlock_eq_some {s : List Char} {i j : Nat}
    (hb : findSub BEGIN_MARKER s = some i)
    (he : findSub END_MARKER (s.drop (i + BEGIN_MARKER.length)) = some j) :
    firstBlock s =
      some (s.take i, (s.drop (i + BEGIN_MARKER.length)).drop (j + END_MARKER.length)) := by
  unfold firstBlock
  rw [hb]
  simp only [he]

theorem findSub_END_none_of_firstBlock_none {s : List Char} {i : Nat}
    (h : firstBlock s = none) (hb : findSub BEGIN_MARKER s = some i) :
    findSub END_MARKER (s.drop (i + BEGIN_MARKER.length)) = none := by
  unfold firstBlock at h
  rw [hb] at h
  cases he : findSub END_MARKER (s.drop (i + BEGIN_MARKER.length)) with
  | none => rfl
  | some j =>
    simp only [he] at h
    cases h

theorem not_isPre_of_head_ne {p s : List Char} (hd : Char) {c : Char}
    (hp : p.head? = some hd) (hne : hd ≠ c) : ¬ IsPre p (c :: s) := by
  intro h
  have hpne : p ≠ [] := by
    intro h0
    rw [h0] at hp
    cases hp
  have hh := head_eq_of_isPre h hpne
  rw [hp] at hh
  injection hh with hh
  exact hne hh

theorem findSub_self_append {pat : List Char} (h : pat ≠ []) (rest : List Char) :
    findSub pat (pat ++ rest) = some 0 := by
  cases pat with
  | nil => exact absurd rfl h
  | cons c s =>
    rw [List.cons_append]
    exact findSub_cons_pos (isPre_append _ _)

theorem drop_append_of_le {t u : List Char} {n : Nat} (h : n ≤ t.length) :
    (t ++ u).drop n = t.drop n ++ u := by
  conv_lhs => rw [← List.take_append_drop n t]
  rw [List.append_assoc]
  exact List.drop_left' (by rw [List.length_take, Nat.min_eq_left h])

/-- No `'#'` in the block address nor in any blocked hostname: the marker
lines are then the only places the regex markers can occur inside the
rendered region. -/
def NoHashConfig (config : Config) : Prop :=
  '#' ∉ config.block_ip ∧ ∀ site ∈ config.blocked_sites, '#' ∉ site

instance (config : Config) : Decidable (NoHashConfig config) :=
  inferInstanceAs (Decidable (_ ∧ _))

theorem hash_not_mem_hostLines {config : Config} (h : NoHashConfig config) :
    '#' ∉ hostLines config := by
  obtain ⟨hip, hsites⟩ := h
  unfold hostLines
  intro hmem
  rw [List.mem_flatMap] at hmem
  obtain ⟨site, hsite, hm⟩ := hmem
  rw [List.mem_append] at hm
  cases hm with
  | inl hin => exact hip hin
  | inr hin =>
    rw [List.mem_cons] at hin
    cases hin with
    | inl htab => exact absurd htab (by decide)
    | inr hin2 =>
      rw [List.mem_append] at hin2
      cases hin2 with
      | inl hsm => exact hsites site hsite hsm
      | inr hnl =>
        rw [List.mem_singleton] at hnl
        exact absurd hnl (by decide)

theorem findSub_END_tailpart {config : Config} (h : NoHashConfig config) :
    ∃ j, findSub END_MARKER ('\n' :: (hostLines config ++ END_MARKER)) = some j ∧
      j + END_MARKER.length = ('\n' :: (hostLines config ++ END_MARKER)).length := by
  have hHE : findSub END_MARKER (hostLines config ++ END_MARKER) =
      (findSub END_MARKER END_MARKER).map (· + (hostLines config).length) :=
    findSub_append_head_avoid (by decide) (hash_not_mem_hostLines h)
  rw [findSub_self (by decide)] at hHE
  have hcons : findSub END_MARKER ('\n' :: (hostLines config ++ END_MARKER)) =
      (findSub END_MARKER (hostLines config ++ END_MARKER)).map (· + 1) :=
    findSub_cons_neg (not_isPre_of_head_ne '#' (by decide) (by decide))
  rw [hHE] at hcons
  refine ⟨0 + (hostLines config).length + 1, by simpa using hcons, ?_⟩
  simp only [List.length_cons, List.length_append]
  omega

theorem findSub_END_bc {config : Config} (h : NoHashConfig config) :
    ∃ j, findSub END_MARKER (build_blocked_content config) = some j ∧
      j + END_MARKER.length = (build_blocked_content config).length := by
  obtain ⟨j, hj, hlen⟩ := findSub_END_tailpart h
  have hB : findSub END_MARKER
      (BEGIN_MARKER ++ '\n' :: (hostLines config ++ END_MARKER)) =
      (findSub END_MARKER ('\n' :: (hostLines config ++ END_MARKER))).map
        (· + BEGIN_MARKER.length) :=
    findSub_append_no_cross (by decide) (by decide)
  rw [hj] at hB
  have hcons : findSub END_MARKER
      ('\n' :: (BEGIN_MARKER ++ '\n' :: (hostLines config ++ END_MARKER))) =
      (findSub END_MARKER
        (BEGIN_MARKER ++ '\n' :: (hostLines config ++ END_MARKER))).map (· + 1) :=
    findSub_cons_neg (not_isPre_of_head_ne '#' (by decide) (by decide))
  rw [hB] at hcons
  refine ⟨j + BEGIN_MARKER.length + 1, ?_, ?_⟩
  · rw [build_blocked_content_shape]
    simpa using hcons
  · rw [build_blocked_content_shape]
    simp only [List.length_cons, List.length_append] at hlen ⊢
    omega

/-- Appending the rendered region to marker-free text: the leftmost regex
match starts right after the separating newline and ends exactly at the end
of the text, so the text before the match is `t ++ "\n"` and nothing
follows it. -/
theorem firstBlock_append_render {t : List Char} {config : Config}
    (ht : hasSub BEGIN_MARKER t = false) (hc : NoHashConfig config) :
    firstBlock (t ++ build_blocked_content config) = some (t ++ ['\n'], []) := by
  have hY : findSub BEGIN_MARKER
      (BEGIN_MARKER ++ '\n' :: (hostLines config ++ END_MARKER)) = some 0 :=
    findSub_self_append (by decide) _
  have hcons : findSub BEGIN_MARKER (build_blocked_content config) =
      (findSub BEGIN_MARKER
        (BEGIN_MARKER ++ '\n' :: (hostLines config ++ END_MARKER))).map (· + 1) := by
    rw [build_blocked_content_shape]
    exact findSub_cons_neg (not_isPre_of_head_ne '#' (by decide) (by decide))
  rw [hY] at hcons
  have hfull : findSub BEGIN_MARKER (t ++ build_blocked_content config) =
      (findSub BEGIN_MARKER (build_blocked_content config)).map (· + t.length) := by
    rw [build_blocked_content_shape]
    exact findSub_append_no_cross (by decide) ht
  rw [hcons] at hfull
  have hfull' : findSub BEGIN_MARKER (t ++ build_blocked_content config) =
      some (0 + 1 + t.length) := by simpa using hfull
  have hrest : (t ++ build_blocked_content config).drop
      (0 + 1 + t.length + BEGIN_MARKER.length) =
      '\n' :: (hostLines config ++ END_MARKER) := by
    rw [build_blocked_content_shape]
    have hassoc : t ++ '\n' :: (BEGIN_MARKER ++ '\n' :: (hostLines config ++ END_MARKER)) =
        (t ++ '\n' :: BEGIN_MARKER) ++ '\n' :: (hostLines config ++ END_MARKER) := by
      simp
    rw [hassoc]
    exact List.drop_left' (by simp; omega)
  obtain ⟨j, hj, hjlen⟩ := findSub_END_tailpart hc
  have he : findSub END_MARKER ((t ++ build_blocked_content config).drop
      (0 + 1 + t.length + BEGIN_MARKER.length)) = some j := by
    rw [hrest]; exact hj
  have := firstBlock_eq_some hfull' he
  rw [hrest] at this
  rw [this]
  have hpost : ('\n' :: (hostLines config ++ END_MARKER)).drop (j + END_MARKER.length) =
      ([] : List Char) := List.drop_eq_nil_iff.mpr (le_of_eq hjlen.symm)
  have hpre : (t ++ build_blocked_content config).take (0 + 1 + t.length) =
      t ++ ['\n'] := by
    rw [build_blocked_content_shape]
    have hassoc : t ++ '\n' :: (BEGIN_MARKER ++ '\n' :: (hostLines config ++ END_MARKER)) =
        (t ++ ['\n']) ++ (BEGIN_MARKER ++ '\n' :: (hostLines config ++ END_MARKER)) := by
      simp
    rw [hassoc]
    exact List.take_left' (by simp; omega)
  rw [hpost, hpre]

/-- Appending the rendered region to text that contains an opening marker
but no full region: the match starts at that stray opening marker and still
ends exactly at the end of the appended region. -/
theorem firstBlock_append_render_of_stray {t : List Char} {config : Config} {i : Nat}
    (hb : findSub BEGIN_MARKER t = some i) (hm : is_match t = false)
    (hc : NoHashConfig config) :
    firstBlock (t ++ build_blocked_content config) =
      some ((t ++ build_blocked_content config).take i, []) := by
  have hB2 : findSub BEGIN_MARKER (t ++ build_blocked_content config) = some i :=
    findSub_append_left hb
  have hfit : i + BEGIN_MARKER.length ≤ t.length := findSub_le hb
  have hrest : (t ++ build_blocked_content config).drop (i + BEGIN_MARKER.length) =
      t.drop (i + BEGIN_MARKER.length) ++ build_blocked_content config :=
    drop_append_of_le hfit
  have hEnone : hasSub END_MARKER (t.drop (i + BEGIN_MARKER.length)) = false := by
    rw [← findSub_eq_none_iff]
    exact findSub_END_none_of_firstBlock_none (is_match_eq_false_iff.mp hm) hb
  obtain ⟨j, hj, hjlen⟩ := findSub_END_bc hc
  have hE : findSub END_MARKER
      (t.drop (i + BEGIN_MARKER.length) ++ build_blocked_content config) =
      (findSub END_MARKER (build_blocked_content config)).map
        (· + (t.drop (i + BEGIN_MARKER.length)).length) := by
    rw [build_blocked_content_shape]
    exact findSub_append_no_cross (by decide) hEnone
  rw [hj] at hE
  have he : findSub END_MARKER ((t ++ build_blocked_content config).drop
      (i + BEGIN_MARKER.length)) =
      some (j + (t.drop (i + BEGIN_MARKER.length)).length) := by
    rw [hrest]
    simpa using hE
  have hres := firstBlock_eq_some hB2 he
  rw [hres, hrest]
  have hpost : (t.drop (i + BEGIN_MARKER.length) ++ build_blocked_content config).drop
      (j + (t.drop (i + BEGIN_MARKER.length)).length + END_MARKER.length) =
      ([] : List Char) := by
    apply List.drop_eq_nil_iff.mpr
    rw [List.length_append]
    omega
  rw [hpost]

theorem firstBlock_none_of_no_begin {s : List Char}
    (h : findSub BEGIN_MARKER s = none) : firstBlock s = none := by
  unfold firstBlock
  rw [h]

/-- Stripping after appending one rendered region to marker-free text
leaves the text plus the separating newline: the regex match does not
include the leading `'\n'` that `build_blocked_content` prepends. -/
theorem stripAll_append_render {t : List Char} {config : Config}
    (ht : hasSub BEGIN_MARKER t = false) (hc : NoHashConfig config) :
    stripAll (t ++ build_blocked_content config) = t ++ ['\n'] := by
  rw [stripAll_eq (firstBlock_append_render ht hc)]
  rw [stripAll_of_none (by decide)]
  rw [List.append_nil]

/-- The first occurrence is minimal. -/
theorem findSub_min {pat s : List Char} {i k : Nat}
    (h : findSub pat s = some i) (hk : IsPre pat (s.drop k)) : i ≤ k := by
  induction s generalizing i k with
  | nil =>
    by_cases hp : pat = []
    · subst hp
      simp [findSub] at h
      omega
    · simp [findSub, hp] at h
  | cons c s ih =>
    by_cases hpre : IsPre pat (c :: s)
    · rw [findSub_cons_pos hpre] at h
      injection h with h
      omega
    · rw [findSub_cons_neg hpre] at h
      rcases Option.map_eq_some'.mp h with ⟨j, hj, rfl⟩
      cases k with
      | zero => exact absurd (by simpa using hk) hpre
      | succ k =>
        have := ih hj (by simpa using hk)
        omega

/-- The appended region is always detected: regardless of the previous
content and of the hostnames, `is_match` holds after an append of the
rendered region. -/
theorem is_match_append_render (t : List Char) (config : Config) :
    is_match (t ++ build_blocked_content config) = true := by
  have hshape : t ++ build_blocked_content config =
      (t ++ ['\n']) ++ (BEGIN_MARKER ++ '\n' :: (hostLines config ++ END_MARKER)) := by
    rw [build_blocked_content_shape]
    simp
  have hBocc : IsPre BEGIN_MARKER
      ((t ++ build_blocked_content config).drop (t.length + 1)) := by
    rw [hshape, List.drop_left' (by simp)]
    exact isPre_append _ _
  have hB : hasSub BEGIN_MARKER (t ++ build_blocked_content config) = true :=
    hasSub_true_of_isPre_drop hBocc
  obtain ⟨i, hi⟩ : ∃ i, findSub BEGIN_MARKER (t ++ build_blocked_content config) = some i := by
    unfold hasSub at hB
    cases hfs : findSub BEGIN_MARKER (t ++ build_blocked_content config) with
    | none => rw [hfs] at hB; cases hB
    | some i => exact ⟨i, rfl⟩
  have hile : i ≤ t.length + 1 := findSub_min hi hBocc
  have hshapeE : t ++ build_blocked_content config =
      (t ++ '\n' :: (BEGIN_MARKER ++ '\n' :: hostLines config)) ++ END_MARKER := by
    rw [build_blocked_content_shape]
    simp
  have hEocc : IsPre END_MARKER
      (((t ++ build_blocked_content config).drop (i + BEGIN_MARKER.length)).drop
        ((t.length + 1 + BEGIN_MARKER.length + (hostLines config).length + 1) -
          (i + BEGIN_MARKER.length))) := by
    rw [List.drop_drop]
    have harith : i + BEGIN_MARKER.length +
        ((t.length + 1 + BEGIN_MARKER.length + (hostLines config).length + 1) -
          (i + BEGIN_MARKER.length)) =
        t.length + 1 + BEGIN_MARKER.length + (hostLines config).length + 1 := by
      omega
    rw [harith, hshapeE, List.drop_left' (by simp; omega)]
    exact isPre_refl _
  have hE : hasSub END_MARKER
      ((t ++ build_blocked_content config).drop (i + BEGIN_MARKER.length)) = true :=
    hasSub_true_of_isPre_drop hEocc
  obtain ⟨j, hj⟩ : ∃ j, findSub END_MARKER
      ((t ++ build_blocked_content config).drop (i + BEGIN_MARKER.length)) = some j := by
    unfold hasSub at hE
    cases hfs : findSub END_MARKER
        ((t ++ build_blocked_content config).drop (i + BEGIN_MARKER.length)) with
    | none => rw [hfs] at hE; cases hE
    | some j => exact ⟨j, rfl⟩
  unfold is_match
  rw [firstBlock_eq_some hi hj]
  rfl

/-- From region-free text, appending the rendered region gives text
containing exactly one block region (marker characters do not occur in the
address or the hostnames). -/
theorem countBlocks_append_render {t : List Char} {config : Config}
    (hm : is_match t = false) (hc : NoHashConfig config) :
    countBlocks (t ++ build_blocked_content config) = 1 := by
  cases hb : findSub BEGIN_MARKER t with
  | none =>
    rw [countBlocks_eq (firstBlock_append_render (findSub_eq_none_iff.mp hb) hc)]
    rw [countBlocks_of_none (by decide)]
  | some i =>
    rw [countBlocks_eq (firstBlock_append_render_of_stray hb hm hc)]
    rw [countBlocks_of_none (by decide)]

theorem hasSub_append_singleton_false {pat t : List Char} {c : Char}
    (ht : hasSub pat t = false) (hc : c ∉ pat) (hlen : 1 < pat.length) :
    hasSub pat (t ++ [c]) = false := by
  have hnil : findSub pat ([] : List Char) = none := by
    have : pat ≠ [] := by
      intro h
      rw [h] at hlen
      simp at hlen
    simp [findSub, this]
  have hone : findSub pat [c] = none := by
    have hnp : ¬ IsPre pat [c] := by
      intro h
      have := isPre_length_le h
      simp at this
      omega
    rw [show [c] = c :: ([] : List Char) from rfl, findSub_cons_neg hnp, hnil]
    rfl
  have := findSub_append_no_cross (u := []) hc ht
  rw [show (c :: ([] : List Char)) = [c] from rfl, hone] at this
  unfold hasSub
  rw [this]
  rfl

namespace Util

/-- Model of `block_sites` (`util.rs` lines 233-282) as a transform of the host-file
content: if the regex already matches, the function reports
"Blocking is already active" and returns without writing; otherwise the
rendered region is appended (the file is opened in append mode). -/
def block_sites (config : Config) (current : List Char) : List Char :=
  if is_match current then current
  else current ++ build_blocked_content config

/-- Result of the teardown in `ctrlc_handler` (`util.rs` lines 63-86). -/
structure CtrlcResult where
  finalContent : List Char
  pidRemoved : Bool
  runningCleared : Bool
  exitCode : Nat
deriving DecidableEq

/-- Model of `ctrlc_handler` (`util.rs` lines 63-86): clears the running flag, reads
the current host-file content, writes back `Regex::replace_all(REGEX, "")`
of it (`let _ = fs::write` ignores a write failure, modelled by `writeOk`),
removes the pid file unconditionally, and exits 0.  The read uses `expect`,
so the model takes the successfully-read `current` content. -/
def ctrlc_handler (config : Config) (writeOk : Bool) (current : List Char) :
    CtrlcResult :=
  { finalContent := if writeOk then stripAll current else current,
    pidRemoved := true,
    runningCleared := true,
    exitCode := 0 }

/-- Result of `stop_daemon` (`util.rs` lines 156-201). -/
structure StopResult where
  finalContent : List Char
  pidRemoved : Bool
  killedPid : Bool
  noSessionMsg : Bool
deriving DecidableEq

/-- Model of `stop_daemon` (`util.rs` lines 156-201): when the pid file reads and
parses, it kills the process, writes the stripped content, and removes the
pid file; otherwise it reports no active session (read failure) or silently
skips (parse failure).  Afterwards it unconditionally re-reads and strips
again when the regex still matches.  Both writes ignore failures
(`let _ = fs::write`), modelled by the single `writeOk` flag. -/
def stop_daemon (config : Config) (pidReads pidParses writeOk : Bool)
    (current : List Char) : StopResult :=
  if pidReads && pidParses then
    let c1 := if writeOk then stripAll current else current
    let c2 := if is_match c1 then (if writeOk then stripAll c1 else c1) else c1
    { finalContent := c2, pidRemoved := true, killedPid := true, noSessionMsg := false }
  else
    let c2 := if is_match current then (if writeOk then stripAll current else current)
              else current
    { finalContent := c2, pidRemoved := false, killedPid := false,
      noSessionMsg := !pidReads }

/-- One tick of the watcher loop spawned by `start_checker_thead`
(`util.rs` lines 102-129): while the running flag is set, each tick
recomputes `build_blocked_content` from the captured config, reads the
host file (a failed read skips the tick), and appends the expected region
when it is not contained verbatim in the content. -/
structure TickResult where
  fileAfter : List Char
  wrote : Bool
  ranBody : Bool
deriving DecidableEq

def checker_tick (config : Config) (running : Bool) (file : List Char)
    (readOk : Bool) : TickResult :=
  if running then
    if readOk then
      if hasSub (build_blocked_content config) file then
        { fileAfter := file, wrote := false, ranBody := true }
      else
        { fileAfter := file ++ build_blocked_content config, wrote := true,
          ranBody := true }
    else
      { fileAfter := file, wrote := false, ranBody := true }
  else
    { fileAfter := file, wrote := false, ranBody := false }

/-- Model of `add_urls` (`util.rs` lines 203-216): with an empty list it only prints
an error; otherwise it appends the urls to `blocked_sites` and saves the
configuration file. -/
def add_urls (urls : List (List Char)) (config : Config) : Config :=
  if urls.isEmpty then config
  else { config with blocked_sites := config.blocked_sites ++ urls }

/-- Model of `remove_urls` (`util.rs` lines 218-231): retains the sites not listed. -/
def remove_urls (urls : List (List Char)) (config : Config) : Config :=
  if urls.isEmpty then config
  else { config with blocked_sites :=
          config.blocked_sites.filter (fun u => !(urls.contains u)) }

/-- State visible to a running session of the command-based engine: the
in-memory `Arc<Config>` captured when the session started, the persisted
`config.toml` contents, and the host file. -/
structure EngineState where
  sessionConfig : Config
  persistedConfig : Config
  hostsFile : List Char
deriving DecidableEq

/-- Events interleaved while a session runs: watcher ticks, and `add` /
`remove` commands (which run in other invocations and only rewrite the
persisted configuration through `save_config`). -/
inductive SessionEvent where
  | tick (readOk : Bool)
  | addCmd (urls : List (List Char))
  | removeCmd (urls : List (List Char))
deriving DecidableEq

def applyEvent (s : EngineState) : SessionEvent → EngineState
  | .tick readOk =>
    { s with hostsFile := (checker_tick s.sessionConfig true s.hostsFile readOk).fileAfter }
  | .addCmd urls => { s with persistedConfig := add_urls urls s.persistedConfig }
  | .removeCmd urls => { s with persistedConfig := remove_urls urls s.persistedConfig }

def runEvents (s : EngineState) : List SessionEvent → EngineState
  | [] => s
  | e :: es => runEvents (applyEvent s e) es

def isTick : SessionEvent → Bool
  | .tick _ => true
  | _ => false

end Util

namespace Main

/-- Error-stream reports of `main.rs`, by their claim-relevant content. -/
inductive ErrMsg where
  | configParseError
  | hostsReadError
  | hostsWriteError
  | hostsOpenPanic
  | dnsFlushPanic
  | criticalRestoreError (path : List Char)
deriving DecidableEq

/-- Environment of one `main.rs` run: results of the external operations
in program order. -/
structure Env where
  configLoad : Option Config
  argPath : Option (List Char)
  argDuration : Option Nat
  argAdd : Option (List (List Char))
  background : Bool
  pidFileExists : Bool
  processAlive : Bool
  hostsRead : Option (List Char)
  hostsOpenOk : Bool
  blockWriteOk : Bool
  dnsFlushOk : Bool
  restoreWriteOk : Bool
deriving DecidableEq

/-- Observable outcome of a `main.rs` run. -/
structure Outcome where
  exitCode : Nat
  errMessages : List ErrMsg
  finalHosts : Option (List Char)
  blockedDuring : Option (List Char)
  pidDeletedAtStart : Bool
  rejectedAlreadyActive : Bool
  pidRemovedAtEnd : Bool
  pidCreatedByDaemonize : Bool
  restoreAttempts : Nat
deriving DecidableEq

/-- The command-line overrides applied in `main.rs` lines 69-79. -/
def apply_args (env : Env) (cfg : Config) : Config :=
  { cfg with
    hosts_path := match env.argPath with | some p => p | none => cfg.hosts_path,
    duration := match env.argDuration with | some d => d | none => cfg.duration,
    blocked_sites := match env.argAdd with
      | some ns => cfg.blocked_sites ++ ns
      | none => cfg.blocked_sites }

/-- The uninterrupted execution of `main` (`main.rs` lines 55-217), in
program order: config load (parse failure exits 1), argument overrides, pid
file check (an existing marker is always called stale and deleted, without
any liveness check), daemonize when backgrounded, read of the host file
(failure exits 1), append-mode open (failure panics), unconditional append
of the rendered region (write failure exits 1), DNS flush (failure panics),
the session sleep with the watcher, and at expiry a single write of the
original snapshot (failure prints the critical message with the path and
execution continues to exit 0).  Audio playback is out of scope.  No code
removes the pid file on this path. -/
def main_run (env : Env) : Outcome :=
  match env.configLoad with
  | none =>
    { exitCode := 1, errMessages := [.configParseError], finalHosts := none,
      blockedDuring := none, pidDeletedAtStart := false,
      rejectedAlreadyActive := false, pidRemovedAtEnd := false,
      pidCreatedByDaemonize := false, restoreAttempts := 0 }
  | some cfg0 =>
    let cfg := apply_args env cfg0
    let pidDel := env.pidFileExists
    match env.hostsRead with
    | none =>
      { exitCode := 1, errMessages := [.hostsReadError], finalHosts := none,
        blockedDuring := none, pidDeletedAtStart := pidDel,
        rejectedAlreadyActive := false, pidRemovedAtEnd := false,
        pidCreatedByDaemonize := env.background, restoreAttempts := 0 }
    | some original =>
      if env.hostsOpenOk = false then
        { exitCode := 101, errMessages := [.hostsOpenPanic],
          finalHosts := some original, blockedDuring := none,
          pidDeletedAtStart := pidDel, rejectedAlreadyActive := false,
          pidRemovedAtEnd := false, pidCreatedByDaemonize := env.background,
          restoreAttempts := 0 }
      else if env.blockWriteOk = false then
        { exitCode := 1, errMessages := [.hostsWriteError],
          finalHosts := some original, blockedDuring := none,
          pidDeletedAtStart := pidDel, rejectedAlreadyActive := false,
          pidRemovedAtEnd := false, pidCreatedByDaemonize := env.background,
          restoreAttempts := 0 }
      else
        let blocked := original ++ build_blocked_content cfg
        if env.dnsFlushOk = false then
          { exitCode := 101, errMessages := [.dnsFlushPanic],
            finalHosts := some blocked, blockedDuring := some blocked,
            pidDeletedAtStart := pidDel, rejectedAlreadyActive := false,
            pidRemovedAtEnd := false, pidCreatedByDaemonize := env.background,
            restoreAttempts := 0 }
        else if env.restoreWriteOk then
          { exitCode := 0, errMessages := [], finalHosts := some original,
            blockedDuring := some blocked, pidDeletedAtStart := pidDel,
            rejectedAlreadyActive := false, pidRemovedAtEnd := false,
            pidCreatedByDaemonize := env.background, restoreAttempts := 1 }
        else
          { exitCode := 0, errMessages := [.criticalRestoreError cfg.hosts_path],
            finalHosts := some blocked, blockedDuring := some blocked,
            pidDeletedAtStart := pidDel, rejectedAlreadyActive := false,
            pidRemovedAtEnd := false, pidCreatedByDaemonize := env.background,
            restoreAttempts := 1 }

/-- Result of the Ctrl-C handler registered in `main.rs` lines 140-156. -/
structure HandlerResult where
  finalContent : List Char
  pidRemoved : Bool
  savedConfig : Bool
  exitCode : Nat
deriving DecidableEq

/-- The Ctrl-C handler of `main.rs` (lines 140-156): clears the running
flag, saves the config, writes the captured ORIGINAL SNAPSHOT back to the
host file (`let _ = fs::write(&handler_config.hosts_path, &*handler_content)`,
failure ignored), and exits 0.  It does not strip and does not remove any
pid file. -/
def ctrlc_handler (original current : List Char) (writeOk : Bool) :
    HandlerResult :=
  { finalContent := if writeOk then original else current,
    pidRemoved := false,
    savedConfig := true,
    exitCode := 0 }

/-- The unconditional append of the rendered region performed by `main.rs`
lines 158-186 (no `is_match` check on this path). -/
def append_block (config : Config) (current : List Char) : List Char :=
  current ++ build_blocked_content config

end Main

theorem hasSub_append_self (t pat : List Char) : hasSub pat (t ++ pat) = true :=
  hasSub_true_of_isPre_drop (k := t.length)
    (by rw [List.drop_left]; exact isPre_refl _)

/-- A sample configuration with the shape the tool persists. -/
def exConfig : Config :=
  { hosts_path := "/etc/hosts".toList,
    block_ip := "0.0.0.0".toList,
    blocked_sites := ["x".toList],
    duration := 1,
    data_directory := "/usr/share/focus".toList,
    log_directory := "/var/log/focus".toList,
    start_audio := "start.mp3".toList,
    end_audio := "end.mp3".toList }

/-- Claim C1 counterexample.  The insertion path of `main.rs` (lines
158-186) appends the rendered region without checking whether it is
already present: two insertions in sequence leave two block regions, not
one, refuting the claim over every insertion site and every content. -/
theorem c1_counterexample :
    countBlocks (Main.append_block exConfig
      (Main.append_block exConfig "h\n".toList)) = 2 := by decide

/-- Claim C1, amended: for the command-based engine (`block_sites` in
`util.rs`), which does check `is_match` before writing, starting from
content with no block region and a configuration whose address and
hostnames contain no `'#'`, inserting twice equals inserting once (the
second call is a no-op) and the content holds exactly one block region. -/
theorem c1_block_sites_idempotent (config : Config) (t : List Char)
    (hm : is_match t = false) (hc : NoHashConfig config) :
    Util.block_sites config (Util.block_sites config t) =
      Util.block_sites config t ∧
    countBlocks (Util.block_sites config t) = 1 := by
  have h1 : Util.block_sites config t = t ++ build_blocked_content config := by
    simp [Util.block_sites, hm]
  constructor
  · rw [h1]
    simp [Util.block_sites, is_match_append_render]
  · rw [h1]
    exact countBlocks_append_render hm hc

/-- Claim C1 witness. -/
theorem c1_witness :
    Util.block_sites exConfig
        (Util.block_sites exConfig "127.0.0.1 localhost\n".toList) =
      Util.block_sites exConfig "127.0.0.1 localhost\n".toList ∧
    countBlocks (Util.block_sites exConfig "127.0.0.1 localhost\n".toList) = 1 :=
  c1_block_sites_idempotent exConfig _ (by decide) (by decide)

/-- Claim C2 counterexample.  Stripping after appending the rendered
region does not restore the text byte-for-byte: the separating newline
that `build_blocked_content` prepends is outside the regex match and
survives the strip. -/
theorem c2_counterexample :
    stripAll ("127.0.0.1 localhost\n".toList ++ build_blocked_content exConfig) ≠
      "127.0.0.1 localhost\n".toList := by decide

/-- Claim C2, amended: for every configuration whose address and hostnames
contain no `'#'` and every text containing no opening marker, stripping
the text obtained by appending the rendered region yields the original
text followed by exactly one newline (the separator prepended by the
renderer), not the original text itself. -/
theorem c2_strip_of_append_render (config : Config) (t : List Char)
    (ht : hasSub BEGIN_MARKER t = false) (hc : NoHashConfig config) :
    stripAll (t ++ build_blocked_content config) = t ++ ['\n'] :=
  stripAll_append_render ht hc

/-- Claim C2 witness. -/
theorem c2_witness :
    stripAll ("ab".toList ++ build_blocked_content exConfig) =
      "ab".toList ++ ['\n'] :=
  c2_strip_of_append_render exConfig _ (by decide) (by decide)

/-- Claim C3 counterexample.  The interrupt handler of `main.rs` (lines
140-156) writes the pre-block snapshot back, not the stripped current
content, and the two differ even in the untampered case. -/
theorem c3_counterexample :
    (Main.ctrlc_handler "a".toList
        ("a".toList ++ build_blocked_content exConfig) true).finalContent =
      "a".toList ∧
    "a".toList ≠ stripAll ("a".toList ++ build_blocked_content exConfig) := by
  exact ⟨rfl, by decide⟩

/-- Claim C3, amended: in the command-based engine (`util.rs`), the
interrupt path (`ctrlc_handler`) and the stop path (`stop_daemon`) both
write `replace_all` of the current content (tolerant of the region being
absent, where the strip is a no-op) and never consult a snapshot; the
`main.rs` interrupt handler instead restores the pre-block snapshot. -/
theorem c3_util_teardown_strips (config : Config) (current t : List Char)
    (ht : hasSub BEGIN_MARKER t = false) (hc : NoHashConfig config) :
    (Util.ctrlc_handler config true current).finalContent = stripAll current ∧
    (is_match current = false →
      (Util.ctrlc_handler config true current).finalContent = current) ∧
    (Util.ctrlc_handler config true
        (t ++ build_blocked_content config)).finalContent = t ++ ['\n'] ∧
    (Util.stop_daemon config true true true
        (t ++ build_blocked_content config)).finalContent = t ++ ['\n'] := by
  have hstrip := stripAll_append_render ht hc
  have hnomatch : is_match (t ++ ['\n']) = false := by
    rw [is_match_eq_false_iff]
    apply firstBlock_none_of_no_begin
    rw [findSub_eq_none_iff]
    exact hasSub_append_singleton_false ht (by decide) (by decide)
  refine ⟨rfl, ?_, ?_, ?_⟩
  · intro h
    simp [Util.ctrlc_handler, stripAll_of_none (is_match_eq_false_iff.mp h)]
  · simp [Util.ctrlc_handler, hstrip]
  · simp [Util.stop_daemon, hstrip, hnomatch]

/-- Claim C3 witness. -/
theorem c3_witness :
    (Util.ctrlc_handler exConfig true "c".toList).finalContent =
      stripAll "c".toList ∧
    (Util.ctrlc_handler exConfig true "c".toList).finalContent = "c".toList ∧
    (Util.ctrlc_handler exConfig true
        ("cd".toList ++ build_blocked_content exConfig)).finalContent =
      "cd".toList ++ ['\n'] ∧
    (Util.stop_daemon exConfig true true true
        ("cd".toList ++ build_blocked_content exConfig)).finalContent =
      "cd".toList ++ ['\n'] := by
  obtain ⟨h1, h2, h3, h4⟩ :=
    c3_util_teardown_strips exConfig "c".toList "cd".toList (by decide) (by decide)
  exact ⟨h1, h2 (by decide), h3, h4⟩

/-- Claim C7: one watcher tick (`start_checker_thead` loop body): with the
flag set, a read failure skips the tick leaving the file unchanged; when
the expected region is not contained verbatim the tick appends it without
stripping, after which the region is present; when it is contained the
tick writes nothing; with the flag cleared the body does not run. -/
theorem c7_watcher_tick (config : Config) (file : List Char) :
    Util.checker_tick config true file false =
      { fileAfter := file, wrote := false, ranBody := true } ∧
    (hasSub (build_blocked_content config) file = false →
      (Util.checker_tick config true file true).fileAfter =
        file ++ build_blocked_content config ∧
      (Util.checker_tick config true file true).wrote = true ∧
      hasSub (build_blocked_content config)
        ((Util.checker_tick config true file true).fileAfter) = true) ∧
    (hasSub (build_blocked_content config) file = true →
      Util.checker_tick config true file true =
        { fileAfter := file, wrote := false, ranBody := true }) ∧
    (∀ r : Bool, Util.checker_tick config false file r =
      { fileAfter := file, wrote := false, ranBody := false }) := by
  refine ⟨rfl, ?_, ?_, ?_⟩
  · intro h
    refine ⟨?_, ?_, ?_⟩
    · simp [Util.checker_tick, h]
    · simp [Util.checker_tick, h]
    · simp [Util.checker_tick, h, hasSub_append_self]
  · intro h
    simp [Util.checker_tick, h]
  · intro r
    rfl

/-- Claim C7 witness. -/
theorem c7_witness :
    ((Util.checker_tick exConfig true "c7".toList true).fileAfter =
        "c7".toList ++ build_blocked_content exConfig ∧
      (Util.checker_tick exConfig true "c7".toList true).wrote = true ∧
      hasSub (build_blocked_content exConfig)
        ((Util.checker_tick exConfig true "c7".toList true).fileAfter) = true) ∧
    Util.checker_tick exConfig true
        ("c7".toList ++ build_blocked_content exConfig) true =
      { fileAfter := "c7".toList ++ build_blocked_content exConfig,
        wrote := false, ranBody := true } := by
  refine ⟨(c7_watcher_tick exConfig "c7".toList).2.1 (by decide), ?_⟩
  exact (c7_watcher_tick exConfig
    ("c7".toList ++ build_blocked_content exConfig)).2.2.1 (by decide)

/-- Lines joined by single newlines, no trailing newline. -/
def joinLines : List (List Char) → List Char
  | [] => []
  | [l] => l
  | l :: l2 :: ls => l ++ '\n' :: joinLines (l2 :: ls)

/-- Modelled from the spec: the host-file region markup, given as a
leading newline, the literal line `# BEGIN FOCUS BLOCK`, one line per
hostname of the form `<block_ip><TAB><hostname>` in configuration order,
then the literal line `# END FOCUS BLOCK`. -/
def render_spec (config : Config) : List Char :=
  '\n' :: joinLines ([BEGIN_MARKER] ++
    config.blocked_sites.map (fun site => config.block_ip ++ '\t' :: site) ++
    [END_MARKER])

theorem joinLines_lines (g : List Char → List Char) (e : List Char) :
    ∀ sites : List (List Char),
      joinLines (sites.map g ++ [e]) =
        sites.flatMap (fun s => g s ++ ['\n']) ++ e := by
  intro sites
  induction sites with
  | nil => simp [joinLines]
  | cons s ss ih =>
    cases ss with
    | nil => simp [joinLines]
    | cons s2 ss2 =>
      calc joinLines ((s :: s2 :: ss2).map g ++ [e])
          = g s ++ '\n' :: joinLines ((s2 :: ss2).map g ++ [e]) := rfl
        _ = g s ++ '\n' :: (((s2 :: ss2).flatMap fun x => g x ++ ['\n']) ++ e) := by
            rw [ih]
        _ = ((s :: s2 :: ss2).flatMap fun x => g x ++ ['\n']) ++ e := by
            simp [List.append_assoc]

theorem hostLines_eq (config : Config) :
    hostLines config =
      config.blocked_sites.flatMap
        (fun s => (config.block_ip ++ '\t' :: s) ++ ['\n']) := by
  unfold hostLines
  congr 1
  funext s
  simp

/-- Claim C9: the renderer is deterministic — it depends only on the block
address and the hostname list — and its output is exactly the specified
markup: a leading newline, the literal opening marker line, one
`<block_ip><TAB><hostname>` line per hostname in configuration order, and
the literal closing marker line. -/
theorem c9_render_matches_spec (config : Config) :
    build_blocked_content config = render_spec config ∧
    (∀ c2 : Config, config.block_ip = c2.block_ip →
      config.blocked_sites = c2.blocked_sites →
      build_blocked_content config = build_blocked_content c2) := by
  constructor
  · rw [build_blocked_content_shape]
    unfold render_spec
    obtain ⟨r, rs, hr⟩ : ∃ r rs,
        config.blocked_sites.map
            (fun site => config.block_ip ++ '\t' :: site) ++ [END_MARKER] =
          r :: rs := by
      cases h : config.blocked_sites.map
          (fun site => config.block_ip ++ '\t' :: site) with
      | nil => exact ⟨END_MARKER, [], by simp [h]⟩
      | cons a l => exact ⟨a, l ++ [END_MARKER], by simp [h]⟩
    show '\n' :: (BEGIN_MARKER ++ '\n' :: (hostLines config ++ END_MARKER)) =
      '\n' :: joinLines (BEGIN_MARKER ::
        (config.blocked_sites.map
          (fun site => config.block_ip ++ '\t' :: site) ++ [END_MARKER]))
    rw [hr]
    rw [show joinLines (BEGIN_MARKER :: r :: rs) =
        BEGIN_MARKER ++ '\n' :: joinLines (r :: rs) from rfl]
    rw [← hr, joinLines_lines, hostLines_eq]
  · intro c2 hip hsites
    unfold build_blocked_content hostLines
    rw [hip, hsites]

/-- A configuration equal to `exConfig` on the fields the renderer reads. -/
def exConfig2 : Config := { exConfig with duration := 99 }

/-- Claim C9 witness. -/
theorem c9_witness :
    build_blocked_content exConfig = render_spec exConfig ∧
    build_blocked_content exConfig = build_blocked_content exConfig2 :=
  ⟨(c9_render_matches_spec exConfig).1,
    (c9_render_matches_spec exConfig).2 exConfig2 rfl rfl⟩

theorem runEvents_persisted_indep :
    ∀ (evs : List Util.SessionEvent) (c pc1 pc2 : Config) (h : List Char),
      (Util.runEvents ⟨c, pc1, h⟩ evs).sessionConfig =
        (Util.runEvents ⟨c, pc2, h⟩ evs).sessionConfig ∧
      (Util.runEvents ⟨c, pc1, h⟩ evs).hostsFile =
        (Util.runEvents ⟨c, pc2, h⟩ evs).hostsFile := by
  intro evs
  induction evs with
  | nil => intro c pc1 pc2 h; exact ⟨rfl, rfl⟩
  | cons e es ih =>
    intro c pc1 pc2 h
    cases e with
    | tick r => exact ih c pc1 pc2 _
    | addCmd urls => exact ih c _ _ h
    | removeCmd urls => exact ih c _ _ h

/-- Claim C10: through any interleaving of watcher ticks and `add` /
`remove` commands (which only rewrite the persisted configuration file),
the in-memory configuration of the session never changes and the host file
evolves exactly as if only the ticks had happened: the expected watcher
region is recomputed each tick from the configuration captured at session
start and is unaffected by persisted edits. -/
theorem c10_watcher_uses_session_config (s : Util.EngineState)
    (evs : List Util.SessionEvent) :
    (Util.runEvents s evs).sessionConfig = s.sessionConfig ∧
    (Util.runEvents s evs).hostsFile =
      (Util.runEvents s (evs.filter Util.isTick)).hostsFile := by
  induction evs generalizing s with
  | nil => exact ⟨rfl, rfl⟩
  | cons e es ih =>
    obtain ⟨c, pc, h⟩ := s
    cases e with
    | tick r =>
      have hfil : (Util.SessionEvent.tick r :: es).filter Util.isTick =
          Util.SessionEvent.tick r :: es.filter Util.isTick := by
        simp [List.filter, Util.isTick]
      rw [hfil]
      show (Util.runEvents (Util.applyEvent ⟨c, pc, h⟩ (.tick r)) es).sessionConfig = c ∧ _
      exact ih _
    | addCmd urls =>
      have hfil : (Util.SessionEvent.addCmd urls :: es).filter Util.isTick =
          es.filter Util.isTick := by
        simp [List.filter, Util.isTick]
      rw [hfil]
      show (Util.runEvents ⟨c, Util.add_urls urls pc, h⟩ es).sessionConfig = c ∧
        (Util.runEvents ⟨c, Util.add_urls urls pc, h⟩ es).hostsFile = _
      obtain ⟨h1, h2⟩ := runEvents_persisted_indep es c (Util.add_urls urls pc) pc h
      obtain ⟨h3, h4⟩ := ih ⟨c, pc, h⟩
      exact ⟨h1.trans h3, h2.trans h4⟩
    | removeCmd urls =>
      have hfil : (Util.SessionEvent.removeCmd urls :: es).filter Util.isTick =
          es.filter Util.isTick := by
        simp [List.filter, Util.isTick]
      rw [hfil]
      show (Util.runEvents ⟨c, Util.remove_urls urls pc, h⟩ es).sessionConfig = c ∧
        (Util.runEvents ⟨c, Util.remove_urls urls pc, h⟩ es).hostsFile = _
      obtain ⟨h1, h2⟩ := runEvents_persisted_indep es c (Util.remove_urls urls pc) pc h
      obtain ⟨h3, h4⟩ := ih ⟨c, pc, h⟩
      exact ⟨h1.trans h3, h2.trans h4⟩

/-- An environment in which every external operation succeeds. -/
def envAllOk : Main.Env :=
  { configLoad := some exConfig, argPath := none, argDuration := none,
    argAdd := none, background := false, pidFileExists := false,
    processAlive := false, hostsRead := some "127.0.0.1 localhost\n".toList,
    hostsOpenOk := true, blockWriteOk := true, dnsFlushOk := true,
    restoreWriteOk := true }

/-- Every operation succeeds except the final restore write. -/
def envRestoreFail : Main.Env := { envAllOk with restoreWriteOk := false }

/-- The configuration file fails to parse. -/
def envNoConfig : Main.Env := { envAllOk with configLoad := none }

/-- The host file cannot be read. -/
def envNoRead : Main.Env := { envAllOk with hostsRead := none }

/-- A session marker exists and the process it references is alive. -/
def envMarkerLive : Main.Env :=
  { envAllOk with pidFileExists := true, processAlive := true }

/-- A backgrounded run: `daemonize` creates the pid file. -/
def envBackground : Main.Env := { envAllOk with background := true }

/-- Claim C4: when the duration elapses without interruption, `main.rs`
writes the snapshot captured before the first write back verbatim; if that
single write fails, the critical message naming the host-file path is
emitted, the write is not retried, and the file keeps the blocked
content. -/
theorem c4_expiry_restores_snapshot (env : Main.Env) (cfg : Config)
    (original : List Char)
    (h1 : env.configLoad = some cfg) (h2 : env.hostsRead = some original)
    (h3 : env.hostsOpenOk = true) (h4 : env.blockWriteOk = true)
    (h5 : env.dnsFlushOk = true) :
    (env.restoreWriteOk = true →
      (Main.main_run env).finalHosts = some original ∧
      (Main.main_run env).errMessages = [] ∧
      (Main.main_run env).restoreAttempts = 1) ∧
    (env.restoreWriteOk = false →
      (Main.main_run env).finalHosts =
        some (original ++ build_blocked_content (Main.apply_args env cfg)) ∧
      Main.ErrMsg.criticalRestoreError (Main.apply_args env cfg).hosts_path ∈
        (Main.main_run env).errMessages ∧
      (Main.main_run env).restoreAttempts = 1) := by
  constructor <;> intro h6 <;>
    simp [Main.main_run, h1, h2, h3, h4, h5, h6]

/-- Claim C4 witness. -/
theorem c4_witness :
    ((Main.main_run envAllOk).finalHosts = some "127.0.0.1 localhost\n".toList ∧
      (Main.main_run envAllOk).errMessages = [] ∧
      (Main.main_run envAllOk).restoreAttempts = 1) ∧
    ((Main.main_run envRestoreFail).finalHosts =
        some ("127.0.0.1 localhost\n".toList ++
          build_blocked_content (Main.apply_args envRestoreFail exConfig)) ∧
      Main.ErrMsg.criticalRestoreError
          (Main.apply_args envRestoreFail exConfig).hosts_path ∈
        (Main.main_run envRestoreFail).errMessages ∧
      (Main.main_run envRestoreFail).restoreAttempts = 1) :=
  ⟨(c4_expiry_restores_snapshot envAllOk exConfig _ rfl rfl rfl rfl rfl).1 rfl,
   (c4_expiry_restores_snapshot envRestoreFail exConfig _ rfl rfl rfl rfl rfl).2 rfl⟩

/-- Claim C5 counterexample.  When the teardown restore write fails,
`main.rs` prints the critical message on the error stream but then runs to
the end of `main` and the process exits 0, not non-zero. -/
theorem c5_counterexample :
    (Main.main_run envRestoreFail).exitCode = 0 ∧
    Main.ErrMsg.criticalRestoreError "/etc/hosts".toList ∈
      (Main.main_run envRestoreFail).errMessages := by
  exact ⟨rfl, by decide⟩

/-- Claim C5, amended: the exit status is zero on success, and nonzero with
a message on the error stream when configuration loading fails or when the
host file cannot be read; a critical restore failure is reported on the
error stream but the process still exits zero. -/
theorem c5_exit_codes (env : Main.Env) :
    (env.configLoad = none →
      (Main.main_run env).exitCode = 1 ∧
      Main.ErrMsg.configParseError ∈ (Main.main_run env).errMessages) ∧
    (∀ cfg, env.configLoad = some cfg → env.hostsRead = none →
      (Main.main_run env).exitCode = 1 ∧
      Main.ErrMsg.hostsReadError ∈ (Main.main_run env).errMessages) ∧
    (∀ cfg original, env.configLoad = some cfg → env.hostsRead = some original →
      env.hostsOpenOk = true → env.blockWriteOk = true → env.dnsFlushOk = true →
      env.restoreWriteOk = true →
      (Main.main_run env).exitCode = 0 ∧ (Main.main_run env).errMessages = []) ∧
    (∀ cfg original, env.configLoad = some cfg → env.hostsRead = some original →
      env.hostsOpenOk = true → env.blockWriteOk = true → env.dnsFlushOk = true →
      env.restoreWriteOk = false →
      (Main.main_run env).exitCode = 0 ∧
      Main.ErrMsg.criticalRestoreError (Main.apply_args env cfg).hosts_path ∈
        (Main.main_run env).errMessages) := by
  refine ⟨?_, ?_, ?_, ?_⟩
  · intro h1
    simp [Main.main_run, h1]
  · intro cfg h1 h2
    simp [Main.main_run, h1, h2]
  · intro cfg original h1 h2 h3 h4 h5 h6
    simp [Main.main_run, h1, h2, h3, h4, h5, h6]
  · intro cfg original h1 h2 h3 h4 h5 h6
    simp [Main.main_run, h1, h2, h3, h4, h5, h6]

/-- Claim C5 witness. -/
theorem c5_witness :
    ((Main.main_run envNoConfig).exitCode = 1 ∧
      Main.ErrMsg.configParseError ∈ (Main.main_run envNoConfig).errMessages) ∧
    ((Main.main_run envNoRead).exitCode = 1 ∧
      Main.ErrMsg.hostsReadError ∈ (Main.main_run envNoRead).errMessages) ∧
    ((Main.main_run envAllOk).exitCode = 0 ∧
      (Main.main_run envAllOk).errMessages = []) ∧
    ((Main.main_run envRestoreFail).exitCode = 0 ∧
      Main.ErrMsg.criticalRestoreError
          (Main.apply_args envRestoreFail exConfig).hosts_path ∈
        (Main.main_run envRestoreFail).errMessages) :=
  ⟨(c5_exit_codes envNoConfig).1 rfl,
   (c5_exit_codes envNoRead).2.1 exConfig rfl rfl,
   (c5_exit_codes envAllOk).2.2.1 exConfig _ rfl rfl rfl rfl rfl rfl,
   (c5_exit_codes envRestoreFail).2.2.2 exConfig _ rfl rfl rfl rfl rfl rfl⟩

/-- Claim C6 counterexample.  With a session marker present and the
referenced process alive, `main.rs` (lines 87-95) does not fail with any
already-active error: it deletes the marker as "stale" without any
liveness check and the session proceeds to completion. -/
theorem c6_counterexample :
    (Main.main_run envMarkerLive).rejectedAlreadyActive = false ∧
    (Main.main_run envMarkerLive).pidDeletedAtStart = true ∧
    (Main.main_run envMarkerLive).exitCode = 0 := ⟨rfl, rfl, rfl⟩

/-- Claim C6, amended: an existing session marker is always treated as
stale — deleted with a warning — and the run proceeds; the liveness of the
referenced process is never consulted and no already-active rejection
exists on any path. -/
theorem c6_no_liveness_check (env : Main.Env) (b : Bool) :
    Main.main_run { env with processAlive := b } = Main.main_run env ∧
    (Main.main_run env).rejectedAlreadyActive = false ∧
    (∀ cfg, env.configLoad = some cfg →
      (Main.main_run env).pidDeletedAtStart = env.pidFileExists) := by
  obtain ⟨cl, ap, ad, aa, bg, pf, pa, hr, ho, bw, df, rw0⟩ := env
  refine ⟨rfl, ?_, ?_⟩
  · cases cl with
    | none => rfl
    | some cfg =>
      cases hr with
      | none => rfl
      | some orig => cases ho <;> cases bw <;> cases df <;> cases rw0 <;> rfl
  · intro cfg h1
    cases cl with
    | none => cases h1
    | some cfg0 =>
      cases hr with
      | none => rfl
      | some orig => cases ho <;> cases bw <;> cases df <;> cases rw0 <;> rfl

/-- Claim C6 witness. -/
theorem c6_witness :
    Main.main_run { envMarkerLive with processAlive := false } =
      Main.main_run envMarkerLive ∧
    (Main.main_run envMarkerLive).rejectedAlreadyActive = false ∧
    (Main.main_run envMarkerLive).pidDeletedAtStart = true := by
  obtain ⟨h1, h2, h3⟩ := c6_no_liveness_check envMarkerLive false
  exact ⟨h1, h2, h3 exConfig rfl⟩

/-- Claim C8 counterexample.  On the duration-expiry termination path of
`main.rs` nothing removes the session marker: a backgrounded run creates
the pid file through `daemonize` and exits 0 with the marker still in
place (it is only deleted as stale by the next start). -/
theorem c8_counterexample :
    (Main.main_run envBackground).pidCreatedByDaemonize = true ∧
    (Main.main_run envBackground).pidRemovedAtEnd = false ∧
    (Main.main_run envBackground).exitCode = 0 := ⟨rfl, rfl, rfl⟩

/-- Claim C8, amended: the command-based interrupt path (`ctrlc_handler`)
and stop path (`stop_daemon`, when the pid file reads and parses) remove
the session marker even when the host-file restore write fails; the
duration-expiry path of `main.rs` never removes it. -/
theorem c8_util_teardown_removes_marker (config : Config) (current : List Char)
    (w : Bool) :
    (Util.ctrlc_handler config w current).pidRemoved = true ∧
    (Util.stop_daemon config true true w current).pidRemoved = true ∧
    (∀ env : Main.Env, (Main.main_run env).pidRemovedAtEnd = false) := by
  refine ⟨rfl, ?_, ?_⟩
  · simp [Util.stop_daemon]
  · intro env
    obtain ⟨cl, ap, ad, aa, bg, pf, pa, hr, ho, bw, df, rw0⟩ := env
    cases cl with
    | none => rfl
    | some cfg =>
      cases hr with
      | none => rfl
      | some orig => cases ho <;> cases bw <;> cases df <;> cases rw0 <;> rfl

end Focus
